import Mathlib

/-!
Verification development for the Prediction-Markets-VS-Sports-Books data
collection pipeline.  The Python sources under `DataCollection/` are embedded
shallowly: strings are Lean `String`s manipulated through their underlying
character lists (mirroring Python's sequence semantics), timestamps are
integer Unix seconds, fallible operations return `Option`/`Except`, and the
network is an explicit oracle argument (the response a call would have
produced).  Each definition keeps the name of the Python function or code
block it embeds.
-/

namespace PMSB

/-! ## Generic string helpers (Python string semantics over `List Char`) -/

/-- Python `s[:n]` (string slice from the start). -/
def strTake (s : String) (n : Nat) : String := ⟨s.data.take n⟩

/-- Python `s[n:]` (string slice to the end). -/
def strDrop (s : String) (n : Nat) : String := ⟨s.data.drop n⟩

/-- Python `len(s)`. -/
def strLen (s : String) : Nat := s.data.length

/-- Whether the character list `needle` occurs as a contiguous segment of
`hay`; `listStartsWith` is the prefix test it iterates. -/
def listStartsWith : List Char → List Char → Bool
  | [], _ => true
  | _ :: _, [] => false
  | a :: as, b :: bs => a = b && listStartsWith as bs

/-- Scan of all suffixes of `hay` for one starting with `needle`. -/
def listHasSegment (needle : List Char) : List Char → Bool
  | [] => needle.isEmpty
  | c :: t => listStartsWith needle (c :: t) || listHasSegment needle t

/-- Python `needle in hay` (substring containment). -/
def strContains (hay needle : String) : Bool :=
  listHasSegment needle.data hay.data

/-- Python `s.strip()` (whitespace removed from both ends). -/
def pyStrip (s : String) : String :=
  ⟨((s.data.dropWhile Char.isWhitespace).reverse.dropWhile Char.isWhitespace).reverse⟩

/-- Python `s.lower()` (ASCII lowering suffices for the team names used). -/
def strLower (s : String) : String := ⟨s.data.map Char.toLower⟩

/-- Whether `l` ends with the character list `suf`. -/
def listEndsWith (l suf : List Char) : Bool :=
  l.reverse.take suf.length = suf.reverse

/-- Worker for Python `s.split(sep)` (non-empty `sep`): leftmost
non-overlapping cuts.  The fuel argument (always instantiated with more
than the input length) makes the recursion structural. -/
def splitSepFuel (sep : List Char) : Nat → List Char → List Char → List (List Char)
  | 0, _, acc => [acc.reverse]
  | _ + 1, [], acc => [acc.reverse]
  | fuel + 1, c :: rest, acc =>
    if listStartsWith sep (c :: rest) ∧ sep ≠ [] then
      acc.reverse :: splitSepFuel sep fuel (List.drop sep.length (c :: rest)) []
    else splitSepFuel sep fuel rest (c :: acc)

/-- Python `s.split(sep)` for a non-empty separator. -/
def pySplit (s sep : String) : List String :=
  (splitSepFuel sep.data (s.data.length + 1) s.data []).map fun l => ⟨l⟩

/-- Python `int(s)` on digit strings (the only inputs the pipeline feeds
it), `none` otherwise. -/
def charsToNat? (l : List Char) : Option Nat :=
  if l ≠ [] ∧ l.all Char.isDigit then
    some (l.foldl (fun n c => n * 10 + (c.toNat - 48)) 0)
  else none

/-- Numeric field of an ISO timestamp. -/
def strToNat? (s : String) : Option Nat := charsToNat? s.data

/-! ## ISO-8601 timestamps (model of `datetime.fromisoformat` on the
canonical UTC strings this pipeline produces and consumes) -/

/-- Civil date to days since the Unix epoch (standard civil-from-days
algorithm); used to give ISO timestamps their real Unix-second value. -/
def daysFromCivil (y m d : Int) : Int :=
  let y2 := if m ≤ 2 then y - 1 else y
  let era := (if 0 ≤ y2 then y2 else y2 - 399) / 400
  let yoe := y2 - era * 400
  let mp := (m + 9) % 12
  let doy := (153 * mp + 2) / 5 + d - 1
  let doe := yoe * 365 + yoe / 4 - yoe / 100 + doy
  era * 146097 + doe - 719468

/-- Parsed components (year, month, day, hour, minute, second) of a civil
UTC datetime. -/
structure CivilTime where
  year : Int
  month : Int
  day : Int
  hour : Int
  minute : Int
  second : Int
deriving DecidableEq, Repr

/-- Unix seconds of a civil UTC datetime. -/
def toEpochSecs (t : CivilTime) : Int :=
  daysFromCivil t.year t.month t.day * 86400
    + t.hour * 3600 + t.minute * 60 + t.second

/-- Drop a trailing `Z` or `+00:00` UTC marker, the two forms produced by
`.isoformat()` and accepted after the code's `replace('Z', '+00:00')`. -/
def dropUtcSuffix (s : String) : String :=
  if listEndsWith s.data ['Z'] then strTake s (strLen s - 1)
  else if listEndsWith s.data ['+', '0', '0', ':', '0', '0'] then
    strTake s (strLen s - 6)
  else s

/-- Modelled behaviour of `datetime.fromisoformat` on the canonical
`YYYY-MM-DDTHH:MM:SS` UTC strings exchanged by this pipeline, returning the
parsed components; any other shape is a parse failure (which the Python code
only ever observes as a raised exception caught by a surrounding
`try/except`). -/
def fromIsoformat (s : String) : Option CivilTime :=
  let s := dropUtcSuffix s
  match pySplit s "T" with
  | [d, t] =>
    match pySplit d "-", pySplit t ":" with
    | [ys, ms, ds], [hs, mins, ss] =>
      match strToNat? ys, strToNat? ms, strToNat? ds,
          strToNat? hs, strToNat? mins, strToNat? ss with
      | some y, some mo, some da, some h, some mi, some sec =>
        some ⟨(y : Int), (mo : Int), (da : Int), (h : Int), (mi : Int), (sec : Int)⟩
      | _, _, _, _, _, _ => none
    | _, _ => none
  | _ => none

/-! ## `get_NBA_prices.py`: event-time derivation (lines 30-43) -/

/-- `game_start = game_end - timedelta(hours=2, minutes=30)` in Unix
seconds. -/
def estimatedGameStart (gameEnd : Int) : Int := gameEnd - (2 * 3600 + 30 * 60)

/-- `target_time = game_start - timedelta(minutes=minutes_before)`. -/
def targetCollectionTime (gameStart minutesBefore : Int) : Int :=
  gameStart - minutesBefore * 60

/-- Lines 32-33: parse `expected_expiration_time` and subtract 2h30m. -/
def game_start_of (expectedExpirationTime : String) : Option Int :=
  (fromIsoformat expectedExpirationTime).map fun t =>
    estimatedGameStart (toEpochSecs t)

/-- Lines 36-39: the Unix-second target passed to the candlestick query. -/
def target_ts_of (expectedExpirationTime : String) (minutesBefore : Int) :
    Option Int :=
  (game_start_of expectedExpirationTime).map fun gs =>
    targetCollectionTime gs minutesBefore

/-- Lines 42-43: `start_ts = target_ts - 300`, `end_ts = target_ts + 300`. -/
def candlestickWindow (targetTs : Int) : Int × Int :=
  (targetTs - 300, targetTs + 300)

/-! ## `get_NBA_prices.py`: candlestick selection (lines 57-94) -/

/-- One candlestick sample; only the fields the selection logic reads are
kept (`end_period_ts` drives the choice, `close` stands for the copied
price payload). -/
structure Candle where
  endPeriodTs : Int
  close : Int
deriving DecidableEq, Repr

/-- `abs(x['end_period_ts'] - target_ts)`, the sort key of line 63. -/
def candleDist (targetTs : Int) (c : Candle) : Nat :=
  (c.endPeriodTs - targetTs).natAbs

/-- Python `min(candles, key=...)` keeps the earliest element on ties:
the running best is replaced only by a strictly smaller key. -/
def pyMinAux (targetTs : Int) (best : Candle) : List Candle → Candle
  | [] => best
  | c :: cs =>
    pyMinAux targetTs (if candleDist targetTs c < candleDist targetTs best then c else best) cs

/-- Lines 60-63: if the response carries a nonempty `candlesticks` list,
select the sample minimising `abs(end_period_ts - target_ts)`; an absent
key or empty list yields `None`. -/
def closestCandle (targetTs : Int) (response : Option (List Candle)) :
    Option Candle :=
  match response with
  | none => none
  | some cs =>
    match cs with
    | [] => none
    | c :: rest => some (pyMinAux targetTs c rest)

/-! ## `get_sportsbook_odds.py`: ticker parsing (lines 174-235) -/

/-- The static NFL abbreviation table of lines 183-200, in source order. -/
def team_map : List (String × String) :=
  [("WAS", "Washington Commanders"), ("SEA", "Seattle Seahawks"),
   ("DAL", "Dallas Cowboys"), ("ARI", "Arizona Cardinals"),
   ("KC", "Kansas City Chiefs"), ("BUF", "Buffalo Bills"),
   ("NO", "New Orleans Saints"), ("LA", "Los Angeles Rams"),
   ("JAC", "Jacksonville Jaguars"), ("LV", "Las Vegas Raiders"),
   ("CAR", "Carolina Panthers"), ("GB", "Green Bay Packers"),
   ("DET", "Detroit Lions"), ("MIN", "Minnesota Vikings"),
   ("CIN", "Cincinnati Bengals"), ("CHI", "Chicago Bears"),
   ("NYJ", "New York Jets"), ("NE", "New England Patriots"),
   ("MIA", "Miami Dolphins"), ("BAL", "Baltimore Ravens"),
   ("PIT", "Pittsburgh Steelers"), ("CLE", "Cleveland Browns"),
   ("HOU", "Houston Texans"), ("IND", "Indianapolis Colts"),
   ("TEN", "Tennessee Titans"), ("DEN", "Denver Broncos"),
   ("LAC", "Los Angeles Chargers"), ("NYG", "New York Giants"),
   ("PHI", "Philadelphia Eagles"), ("SF", "San Francisco 49ers"),
   ("TB", "Tampa Bay Buccaneers"), ("ATL", "Atlanta Falcons")]

/-- Python `code in team_map` / `team_map[code]`. -/
def tmLookup (code : String) : Option String := team_map.lookup code

/-- Whether split point `i` cuts `teamPart` into two valid codes (the loop
guard of line 213). -/
def validSplit (teamPart : String) (i : Nat) : Bool :=
  (tmLookup (strTake teamPart i)).isSome && (tmLookup (strDrop teamPart i)).isSome

/-- The loop body of lines 209-226 over a list of candidate split indices:
at the first valid split assign `(away_code, home_code)` by the winner rule
and break. -/
def findCodesAux (teamPart winner : String) : List Nat → Option (String × String)
  | [] => none
  | i :: rest =>
    if validSplit teamPart i then
      let t1 := strTake teamPart i
      let t2 := strDrop teamPart i
      if winner = t1 then some (t2, t1)
      else if winner = t2 then some (t1, t2)
      else some (t1, t2)
    else findCodesAux teamPart winner rest

/-- The `(away_code, home_code)` assignment of lines 216-225 at a valid
split point: the half equal to the winner code becomes home; when the
winner matches neither half, the first half is away and the second home. -/
def assignCodes (teamPart winner : String) (i : Nat) : String × String :=
  let t1 := strTake teamPart i
  let t2 := strDrop teamPart i
  if winner = t1 then (t2, t1)
  else if winner = t2 then (t1, t2)
  else (t1, t2)

/-- Lines 209-226: `for i in range(2, len(team_part))`, yielding the
`(away_code, home_code)` pair of the first valid split, if any. -/
def findCodes (teamPart winner : String) : Option (String × String) :=
  findCodesAux teamPart winner ((List.range (strLen teamPart)).drop 2)

/-- Lines 176-232: parse a ticker `PREFIX-{date}{codes}-{winner}` into full
`(home_team, away_team)` names; `None` when the ticker has too few segments,
no split of the code block is valid, or the two codes coincide. -/
def resolveTicker (ticker : String) : Option (String × String) :=
  let parts := pySplit ticker "-"
  if 3 ≤ parts.length then
    let teamPart := strDrop (parts.getD 1 "") 7
    let winner := parts.getD 2 ""
    match findCodes teamPart winner with
    | some (awayCode, homeCode) =>
      if (tmLookup awayCode).isSome && (tmLookup homeCode).isSome
          && awayCode ≠ homeCode then
        match tmLookup homeCode, tmLookup awayCode with
        | some homeFull, some awayFull => some (homeFull, awayFull)
        | _, _ => none
      else none
    | none => none
  else none

/-- The specification-level enumeration of every split point of `teamPart`
(indices `0` through `len`), first valid one wins; stated to compare with
the source loop, which starts at index 2. -/
def specFirstSplit (teamPart : String) : Option Nat :=
  (List.range (strLen teamPart + 1)).find? (validSplit teamPart)

/-! ## `get_sportsbook_odds.py`: team resolution (lines 159-240) -/

/-- Outcome of the team-extraction block: `ok home away` when both names end
up truthy, `fail` when the final `if not home_team or not away_team` check
rejects, `crash` when an uncaught exception (tuple-unpack `ValueError` /
`IndexError` outside any `try`) escapes the loop. -/
inductive ResolveOutcome
  | ok (home away : String)
  | fail
  | crash
deriving DecidableEq, Repr

/-- Lines 237-240 applied to one candidate name: Python string truthiness. -/
def finalCheck (home away : String) : ResolveOutcome :=
  if home = "" ∨ away = "" then .fail else .ok home away

/-- Lines 161-240: resolve `(home_team, away_team)` from a contract's
subtitle, falling back to ticker parsing.  The `" @ "` branch unpacks
`subtitle.split(' @ ')` into exactly two names (any other arity raises),
the `" vs "` branch indexes the first two pieces, and the ticker branch
runs inside `try/except` so it can only fail, never crash. -/
def resolveTeams (rawSubtitle ticker : String) : ResolveOutcome :=
  let subtitle := pyStrip rawSubtitle
  if subtitle ≠ "" ∧ (strContains subtitle " @ " ∨ strContains subtitle " vs ") then
    if strContains subtitle " @ " then
      match pySplit subtitle " @ " with
      | [a, h] => finalCheck h a
      | _ => .crash
    else
      match pySplit subtitle " vs " with
      | h :: a :: _ => finalCheck h a
      | _ => .crash
  else
    match resolveTicker ticker with
    | some (h, a) => finalCheck h a
    | none => .fail

/-! ## `odds_client.py`: `find_game_by_teams` (lines 137-162) -/

/-- One game entry of the odds provider's payload; only the identity fields
the matcher and record builder read are kept. -/
structure Game where
  id : String
  home_team : String
  away_team : String
  commence_time : String
deriving DecidableEq, Repr

/-- The containment test `a in b or b in a` on lowered names, tried for both
team-order assignments (lines 156-159). -/
def teamsMatch (team1 team2 : String) (g : Game) : Bool :=
  let t1 := strLower team1
  let t2 := strLower team2
  let h := strLower g.home_team
  let a := strLower g.away_team
  ((strContains h t1 || strContains t1 h) && (strContains a t2 || strContains t2 a))
    || ((strContains h t2 || strContains t2 h) && (strContains a t1 || strContains t1 a))

/-- Lines 152-162: scan the payload in order, return the first matching
game, else `None`. -/
def find_game_by_teams : List Game → String → String → Option Game
  | [], _, _ => none
  | g :: gs, t1, t2 =>
    if teamsMatch t1 t2 g then some g else find_game_by_teams gs t1 t2

/-! ## `get_sportsbook_odds.py`: point-in-time lookup (lines 24-121) -/

/-- Result of `OddsAPIClient.get_historical_odds` (odds_client.py lines
119-135): `failure` embeds the `success: False` dict returned when the
request raised, `success` carries the decoded JSON payload.  `none` as
payload models a falsy (empty) response body, `some games` a body whose
`data` key holds the game list. -/
inductive HistResult
  | failure (error : String)
  | success (payload : Option (List Game)) (timestamp : String)
deriving DecidableEq, Repr

/-- The snapshot record assembled on lines 102-117; bookmaker extraction is
carried opaquely via the matched game (it copies fields and never fails). -/
structure OddsRecord where
  game_id : String
  home_team : String
  away_team : String
  commence_time : String
  collection_ts : Int
deriving DecidableEq, Repr

/-- Lines 44-121 of `get_sportsbook_odds_before_game_start`, with the
network call an oracle argument: parse `game_start_time` (a raised
`ValueError` is caught by the enclosing `try` and becomes `None`), give up
on a failed request (`not result['success']`), on a falsy payload
(`not odds_data`), or when `find_game_by_teams` misses; otherwise build the
snapshot record for the matched game. -/
def get_sportsbook_odds_before_game_start (home_team away_team : String)
    (game_start_time : String) (minutes_before : Int)
    (result : HistResult) : Option OddsRecord :=
  match fromIsoformat game_start_time with
  | none => none
  | some gs =>
    let targetTs := toEpochSecs gs - minutes_before * 60
    match result with
    | .failure _ => none
    | .success payload _ =>
      match payload with
      | none => none
      | some games =>
        match find_game_by_teams games home_team away_team with
        | none => none
        | some g =>
          some { game_id := g.id, home_team := g.home_team,
                 away_team := g.away_team, commence_time := g.commence_time,
                 collection_ts := targetTs }

/-! ## `get_sportsbook_odds.py`: batch collector (lines 152-285) -/

/-- One entry of the input `closing_lines` array together with the response
oracle for the historical-odds call it would trigger. -/
structure KalshiGame where
  subtitle : String
  ticker : String
  game_start : Option String
  histResult : HistResult
deriving Repr

/-- Mutable state of the collection loop: the three counters of lines
152-154 and the accumulating `sportsbook_odds` array. -/
structure SBState where
  processed : Nat
  successful : Nat
  failed : Nat
  records : List OddsRecord
deriving DecidableEq, Repr

/-- Python truthiness of an optional string field. -/
def truthy : Option String → Option String
  | none => none
  | some s => if s = "" then none else some s

/-- One iteration of the `for kalshi_game in closing_lines` loop (lines
156-274).  `Except.error` models an exception escaping the loop (which
aborts the run before any envelope is written). -/
def sbStep (s : SBState) (g : KalshiGame) : Except Unit SBState :=
  let s := { s with processed := s.processed + 1 }
  match resolveTeams g.subtitle g.ticker with
  | .crash => .error ()
  | .fail => .ok { s with failed := s.failed + 1 }
  | .ok home away =>
    match truthy g.game_start with
    | none => .ok { s with failed := s.failed + 1 }
    | some gs =>
      match get_sportsbook_odds_before_game_start (pyStrip home) (pyStrip away)
          gs 5 g.histResult with
      | none => .ok { s with failed := s.failed + 1 }
      | some r =>
        .ok { s with successful := s.successful + 1,
                     records := s.records ++ [r] }

/-- The whole loop, threading state item by item. -/
def runSB : List KalshiGame → SBState → Except Unit SBState
  | [], s => .ok s
  | g :: gs, s =>
    match sbStep s g with
    | .error e => .error e
    | .ok s' => runSB gs s'

/-- The initial counters of lines 152-154. -/
def sbInit : SBState := ⟨0, 0, 0, []⟩

/-- The saved envelope of lines 277-285 (its payload-bearing fields). -/
structure SBEnvelope where
  collection_date : String
  total_games_processed : Nat
  successful : Nat
  failed : Nat
  sportsbook_odds : List OddsRecord
deriving DecidableEq, Repr

/-- Lines 156-289: run the loop over `closing_lines` and, when no exception
escaped, write the envelope. -/
def collect_sportsbook_odds_for_games (closing_lines : List KalshiGame)
    (now : String) : Except Unit SBEnvelope :=
  match runSB closing_lines sbInit with
  | .error e => .error e
  | .ok s => .ok ⟨now, s.processed, s.successful, s.failed, s.records⟩

/-! ## `get_NBA_prices.py`: batch collector (lines 101-191) -/

/-- One market entry of the input file, with the candlestick response the
`get_price_before_game_start` call for it would receive (`none` when the
request itself fails and the `try/except` yields `None`). -/
structure MarketItem where
  ticker : Option String
  expected_expiration_time : Option String
  status : Option String
  candleResponse : Option (Option (List Candle))
deriving Repr

/-- Lines 30-98 of `get_price_before_game_start` for one market: derive the
target, query the window, pick the closest candle; every failure path
(unparseable expiration, failed request, absent key, empty list) is `None`. -/
def get_price_before_game_start (expected_expiration_time : String)
    (minutes_before : Int) (candleResponse : Option (Option (List Candle))) :
    Option Candle :=
  match target_ts_of expected_expiration_time minutes_before with
  | none => none
  | some targetTs =>
    match candleResponse with
    | none => none
    | some resp => closestCandle targetTs resp

/-- Counters of lines 125-128 plus the accumulating `closing_lines` array. -/
structure CLState where
  processed : Nat
  successful : Nat
  failed : Nat
  skipped : Nat
  lines : List Candle
deriving DecidableEq, Repr

/-- One iteration of the market loop (lines 133-176): non-finalized markets
are skipped, markets missing a truthy ticker or expiration fail, otherwise
the price lookup decides success or failure. -/
def clStep (s : CLState) (m : MarketItem) : CLState :=
  let s := { s with processed := s.processed + 1 }
  if m.status ≠ some "finalized" then { s with skipped := s.skipped + 1 }
  else if (truthy m.ticker).isNone ∨ (truthy m.expected_expiration_time).isNone then
    { s with failed := s.failed + 1 }
  else
    match (truthy m.expected_expiration_time).bind
        (fun e => get_price_before_game_start e 5 m.candleResponse) with
    | some p =>
      { s with successful := s.successful + 1, lines := s.lines ++ [p] }
    | none => { s with failed := s.failed + 1 }

/-- Lines 130-176: the loop over every market of every series (the nested
iteration flattens to one pass over all items). -/
def runCL (items : List MarketItem) (s : CLState) : CLState :=
  items.foldl clStep s

/-- The initial counters of lines 125-128. -/
def clInit : CLState := ⟨0, 0, 0, 0, []⟩

/-- The saved envelope of lines 179-187 (its payload-bearing fields). -/
structure CLEnvelope where
  collection_date : String
  total_markets_processed : Nat
  successful : Nat
  failed : Nat
  skipped : Nat
  closing_lines : List Candle
deriving DecidableEq, Repr

/-- Lines 130-191: run the loop and write the envelope. -/
def collect_closing_lines_for_all_games (items : List MarketItem)
    (now : String) : CLEnvelope :=
  let s := runCL items clInit
  ⟨now, s.processed, s.successful, s.failed, s.skipped, s.lines⟩

/-! ## `get_NBA_markets.py`: paginated series fetch (lines 15-59) -/

/-- One market entry of a Kalshi page; the status feeds the statistics, the
payload stands for the rest of the JSON object, carried verbatim. -/
structure Market where
  status : Option String
  payload : String
deriving DecidableEq, Repr

/-- What one iteration of the pagination loop receives: a raised transport
or HTTP-status exception (`err`), or a decoded body with its `markets` list
and optional `cursor`. -/
inductive PageResult
  | err
  | page (markets : List Market) (cursor : Option String)
deriving DecidableEq, Repr

/-- Python `not cursor`: the cursor is absent or the empty string. -/
def cursorAbsent : Option String → Bool
  | none => true
  | some c => c = ""

/-- Lines 24-59: follow the cursor page by page, extending `all_markets`;
`break` (returning what was accumulated so far) on an absent cursor or on
an exception.  The response stream is the oracle: the `k`-th element is
what the `k`-th request would produce, and an exhausted stream ends the
recursion with what was accumulated (the real loop always receives some
response, so theorems only concern streams that terminate inside the
list). -/
def get_all_markets_for_series : List PageResult → List Market
  | [] => []
  | .err :: _ => []
  | .page ms c :: rest =>
    if cursorAbsent c then ms else ms ++ get_all_markets_for_series rest

/-! ## `get_NBA_markets.py`: envelope construction (lines 62-161) -/

/-- One entry of `game_series.json`'s `nba_series` array. -/
structure SeriesInfo where
  ticker : String
  title : String
deriving DecidableEq, Repr

/-- The per-series record stored on lines 90-94. -/
structure SeriesEntry where
  series_info : SeriesInfo
  total_markets : Nat
  markets : List Market
deriving DecidableEq, Repr

/-- Lines 79-99: fetch every series' markets and build `all_series_markets`
(an insertion-ordered dict, modelled as an association list) together with
the running market total. -/
def fetch_nba_series_markets (input : List (SeriesInfo × List PageResult)) :
    List (String × SeriesEntry) × Nat :=
  input.foldl
    (fun (acc : List (String × SeriesEntry) × Nat) si =>
      let markets := get_all_markets_for_series si.2
      (acc.1 ++ [(si.1.ticker, ⟨si.1, markets.length, markets⟩)],
       acc.2 + markets.length))
    ([], 0)

/-- Increment an insertion-ordered string counter (the
`if status not in d: d[status] = 0; d[status] += 1` idiom). -/
def bumpCount (k : String) : List (String × Nat) → List (String × Nat)
  | [] => [(k, 1)]
  | (k', n) :: t => if k' = k then (k', n + 1) :: t else (k', n) :: bumpCount k t

/-- `market.get('status', 'unknown')`. -/
def statusOf (m : Market) : String := m.status.getD "unknown"

/-- The statistics object of lines 102-129. -/
structure Stats where
  by_series : List (String × List (String × Nat))
  overall : List (String × Nat)
deriving DecidableEq, Repr

/-- Lines 102-129: per-series and overall status counts, in insertion
order. -/
def categorize_markets_by_status (sm : List (String × SeriesEntry)) : Stats :=
  sm.foldl
    (fun (st : Stats) entry =>
      let seriesStats := entry.2.markets.foldl
        (fun counts m => bumpCount (statusOf m) counts) []
      let overall := entry.2.markets.foldl
        (fun counts m => bumpCount (statusOf m) counts) st.overall
      ⟨st.by_series ++ [(entry.1, seriesStats)], overall⟩)
    ⟨[], []⟩

/-- The output envelope of lines 150-156. -/
structure MarketsEnvelope where
  fetch_date : String
  total_series : Nat
  total_markets : Nat
  statistics : Stats
  series_markets : List (String × SeriesEntry)
deriving DecidableEq, Repr

/-- Lines 140-161 of `main`: fetch, categorize, and assemble the envelope
that is serialized to `nba_series_markets.json`; `now` is the value of
`datetime.now().isoformat()`. -/
def buildMarketsEnvelope (now : String)
    (input : List (SeriesInfo × List PageResult)) : MarketsEnvelope :=
  let fetched := fetch_nba_series_markets input
  let stats := categorize_markets_by_status fetched.1
  ⟨now, fetched.1.length, fetched.2, stats, fetched.1⟩

/-! ## Supporting lemmas -/

/-- `min(..., key=...)` returns the initial best or a list element, never
increases the key, and minimises it over the list. -/
theorem pyMinAux_min (t : Int) :
    ∀ (l : List Candle) (b : Candle),
      (pyMinAux t b l = b ∨ pyMinAux t b l ∈ l)
      ∧ candleDist t (pyMinAux t b l) ≤ candleDist t b
      ∧ ∀ x ∈ l, candleDist t (pyMinAux t b l) ≤ candleDist t x := by
  intro l
  induction l with
  | nil => intro b; simp [pyMinAux]
  | cons c cs ih =>
    intro b
    by_cases hlt : candleDist t c < candleDist t b
    · have h := ih c
      refine ⟨?_, ?_, ?_⟩
      · rcases h.1 with h1 | h1
        · exact Or.inr (by simp [pyMinAux, hlt, h1])
        · exact Or.inr (by simp [pyMinAux, hlt]; right; exact h1)
      · calc candleDist t (pyMinAux t b (c :: cs))
            = candleDist t (pyMinAux t c cs) := by simp [pyMinAux, hlt]
          _ ≤ candleDist t c := h.2.1
          _ ≤ candleDist t b := le_of_lt hlt
      · intro x hx
        rcases List.mem_cons.mp hx with hx | hx
        · subst hx
          simpa [pyMinAux, hlt] using h.2.1
        · simpa [pyMinAux, hlt] using h.2.2 x hx
    · have h := ih b
      refine ⟨?_, ?_, ?_⟩
      · rcases h.1 with h1 | h1
        · exact Or.inl (by simp [pyMinAux, hlt, h1])
        · exact Or.inr (by simp [pyMinAux, hlt]; right; exact h1)
      · simpa [pyMinAux, hlt] using h.2.1
      · intro x hx
        rcases List.mem_cons.mp hx with hx | hx
        · subst hx
          have : candleDist t b ≤ candleDist t x := by omega
          calc candleDist t (pyMinAux t b (x :: cs))
              = candleDist t (pyMinAux t b cs) := by simp [pyMinAux, hlt]
            _ ≤ candleDist t b := h.2.1
            _ ≤ candleDist t x := this
        · simpa [pyMinAux, hlt] using h.2.2 x hx

/-- `min(..., key=...)` keeps the earliest element on ties: every element
listed strictly before the returned one has a strictly larger key. -/
theorem pyMinAux_first (t : Int) :
    ∀ (l : List Candle) (b : Candle),
      (pyMinAux t b l = b ∧ ∀ x ∈ l, candleDist t b ≤ candleDist t x)
      ∨ (∃ l₁ l₂, l = l₁ ++ pyMinAux t b l :: l₂
          ∧ candleDist t (pyMinAux t b l) < candleDist t b
          ∧ ∀ x ∈ l₁, candleDist t (pyMinAux t b l) < candleDist t x) := by
  intro l
  induction l with
  | nil => intro b; exact Or.inl ⟨rfl, by simp⟩
  | cons c cs ih =>
    intro b
    by_cases hlt : candleDist t c < candleDist t b
    · rcases ih c with ⟨h1, h2⟩ | ⟨l₁, l₂, h1, h2, h3⟩
      · refine Or.inr ⟨[], cs, ?_, ?_, by simp⟩
        · simp [pyMinAux, hlt, h1]
        · simp [pyMinAux, hlt, h1]
      · refine Or.inr ⟨c :: l₁, l₂, ?_, ?_, ?_⟩
        · simpa [pyMinAux, hlt] using congrArg (c :: ·) h1
        · have : candleDist t (pyMinAux t c cs) < candleDist t c := by
            simpa using h2
          simp [pyMinAux, hlt]; omega
        · intro x hx
          rcases List.mem_cons.mp hx with hx | hx
          · subst hx
            have : candleDist t (pyMinAux t b (x :: cs))
                = candleDist t (pyMinAux t x cs) := by simp [pyMinAux, hlt]
            omega
          · simpa [pyMinAux, hlt] using h3 x hx
    · rcases ih b with ⟨h1, h2⟩ | ⟨l₁, l₂, h1, h2, h3⟩
      · refine Or.inl ⟨by simp [pyMinAux, hlt, h1], ?_⟩
        intro x hx
        rcases List.mem_cons.mp hx with hx | hx
        · subst hx; omega
        · exact h2 x hx
      · refine Or.inr ⟨c :: l₁, l₂, ?_, ?_, ?_⟩
        · simpa [pyMinAux, hlt] using congrArg (c :: ·) h1
        · simpa [pyMinAux, hlt] using h2
        · intro x hx
          rcases List.mem_cons.mp hx with hx | hx
          · subst hx
            have : candleDist t (pyMinAux t b (x :: cs))
                = candleDist t (pyMinAux t b cs) := by simp [pyMinAux, hlt]
            omega
          · simpa [pyMinAux, hlt] using h3 x hx

/-! ## Claim theorems -/

/-- Claim C3: the estimated event start equals the parsed expiration
timestamp minus 2h30m, the target collection time equals the estimated
start minus `minutes_before` (default 5) minutes, and
`estimate_start("2025-11-26T07:00:00Z")` yields `2025-11-26T04:30:00Z`. -/
theorem event_time_derivation :
    (∀ e : Int, estimatedGameStart e = e - 9000)
    ∧ (∀ gs mb : Int, targetCollectionTime gs mb = gs - 60 * mb)
    ∧ (∀ s t, game_start_of s = some t →
        ∃ p, fromIsoformat s = some p ∧ t = toEpochSecs p - 9000)
    ∧ (∀ s gs, game_start_of s = some gs → target_ts_of s 5 = some (gs - 300))
    ∧ game_start_of "2025-11-26T07:00:00Z"
        = (fromIsoformat "2025-11-26T04:30:00Z").map toEpochSecs := by
  refine ⟨?_, ?_, ?_, ?_, by decide⟩
  · intro e; simp [estimatedGameStart]
  · intro gs mb; simp [targetCollectionTime]; ring
  · intro s t h
    cases hp : fromIsoformat s with
    | none => simp [game_start_of, hp] at h
    | some p =>
      refine ⟨p, rfl, ?_⟩
      simp [game_start_of, hp, estimatedGameStart] at h
      omega
  · intro s gs h
    simp [target_ts_of, h, targetCollectionTime]

/-- Witness for C3 at the concrete expiration timestamp of the spec's
example. -/
theorem event_time_derivation_witness :
    game_start_of "2025-11-26T07:00:00Z" = some 1764131400
    ∧ target_ts_of "2025-11-26T07:00:00Z" 5 = some 1764131100 := by
  constructor
  · decide
  · have h := event_time_derivation.2.2.2.1 "2025-11-26T07:00:00Z" 1764131400
      (by decide)
    simpa using h

/-- Claim C2: the candlestick matcher queries a window of exactly ±300
seconds around the target, selects the sample minimising
`|end_period_ts - target_ts|` (keeping the earliest listed sample on a
tie), returns `None` for an absent or empty sample list, and on the
two-sample list `[{ts:100}, {ts:200}]` with target 150 deterministically
returns the `ts=100` sample. -/
theorem candlestick_snapshot_selection :
    (∀ target : Int, candlestickWindow target = (target - 300, target + 300))
    ∧ (∀ target : Int, closestCandle target none = none)
    ∧ (∀ target : Int, closestCandle target (some []) = none)
    ∧ (∀ (target : Int) (cs : List Candle) (c : Candle),
        closestCandle target (some cs) = some c →
          c ∈ cs
          ∧ (∀ x ∈ cs, candleDist target c ≤ candleDist target x)
          ∧ ∃ l₁ l₂, cs = l₁ ++ c :: l₂
              ∧ ∀ x ∈ l₁, candleDist target c < candleDist target x)
    ∧ closestCandle 150 (some [⟨100, 1⟩, ⟨200, 2⟩]) = some ⟨100, 1⟩ := by
  refine ⟨fun _ => rfl, fun _ => rfl, fun _ => rfl, ?_, by decide⟩
  intro target cs c h
  match cs with
  | [] => simp [closestCandle] at h
  | c₀ :: rest =>
    have hc : pyMinAux target c₀ rest = c := by
      simpa [closestCandle] using h
    have hmin := pyMinAux_min target rest c₀
    have hfirst := pyMinAux_first target rest c₀
    rw [hc] at hmin hfirst
    refine ⟨?_, ?_, ?_⟩
    · rcases hmin.1 with h1 | h1
      · simp [h1]
      · exact List.mem_cons_of_mem _ h1
    · intro x hx
      rcases List.mem_cons.mp hx with hx | hx
      · subst hx; exact hmin.2.1
      · exact hmin.2.2 x hx
    · rcases hfirst with ⟨h1, _⟩ | ⟨l₁, l₂, h1, h2, h3⟩
      · exact ⟨[], rest, by simp [h1], by simp⟩
      · refine ⟨c₀ :: l₁, l₂, by simp [h1], ?_⟩
        intro x hx
        rcases List.mem_cons.mp hx with hx | hx
        · subst hx; exact h2
        · exact h3 x hx

/-- Witness for C2: the selection facts instantiated on the spec's
two-sample example. -/
theorem candlestick_snapshot_selection_witness :
    (Candle.mk 100 1) ∈ [Candle.mk 100 1, Candle.mk 200 2]
    ∧ (∀ x ∈ [Candle.mk 100 1, Candle.mk 200 2],
        candleDist 150 (Candle.mk 100 1) ≤ candleDist 150 x)
    ∧ ∃ l₁ l₂, [Candle.mk 100 1, Candle.mk 200 2] = l₁ ++ Candle.mk 100 1 :: l₂
        ∧ ∀ x ∈ l₁, candleDist 150 (Candle.mk 100 1) < candleDist 150 x :=
  candlestick_snapshot_selection.2.2.2.1 150 [Candle.mk 100 1, Candle.mk 200 2]
    (Candle.mk 100 1) (by decide)

/-- Claim C5: the cross-provider lookup returns the first game in list
order whose teams match the resolved pair under case-insensitive
containment in either direction for either order assignment, and `None`
when no game matches. -/
theorem cross_provider_game_lookup :
    ∀ (l : List Game) (t1 t2 : String),
      (find_game_by_teams l t1 t2 = none ↔ ∀ g ∈ l, teamsMatch t1 t2 g = false)
      ∧ (∀ g, find_game_by_teams l t1 t2 = some g →
          teamsMatch t1 t2 g = true
          ∧ ∃ l₁ l₂, l = l₁ ++ g :: l₂
              ∧ ∀ g' ∈ l₁, teamsMatch t1 t2 g' = false) := by
  intro l t1 t2
  induction l with
  | nil => simp [find_game_by_teams]
  | cons g gs ih =>
    by_cases hm : teamsMatch t1 t2 g = true
    · refine ⟨?_, ?_⟩
      · simp [find_game_by_teams, hm]
      · intro g' hg'
        simp only [find_game_by_teams, if_pos hm, Option.some.injEq] at hg'
        subst hg'
        exact ⟨hm, [], gs, rfl, by simp⟩
    · have hm' : teamsMatch t1 t2 g = false := by
        cases h : teamsMatch t1 t2 g
        · rfl
        · exact absurd h hm
      refine ⟨?_, ?_⟩
      · rw [show find_game_by_teams (g :: gs) t1 t2 = find_game_by_teams gs t1 t2
          from by simp [find_game_by_teams, hm']]
        rw [ih.1]
        constructor
        · intro h g' hg'
          rcases List.mem_cons.mp hg' with hg' | hg'
          · subst hg'; exact hm'
          · exact h g' hg'
        · intro h g' hg'
          exact h g' (List.mem_cons_of_mem _ hg')
      · intro g' hg'
        rw [show find_game_by_teams (g :: gs) t1 t2 = find_game_by_teams gs t1 t2
          from by simp [find_game_by_teams, hm']] at hg'
        obtain ⟨hmatch, l₁, l₂, heq, hpre⟩ := ih.2 g' hg'
        refine ⟨hmatch, g :: l₁, l₂, by simp [heq], ?_⟩
        intro x hx
        rcases List.mem_cons.mp hx with hx | hx
        · subst hx; exact hm'
        · exact hpre x hx

/-- Witness for C5: the lookup walks past a non-matching game and returns
the first matching one. -/
theorem cross_provider_game_lookup_witness :
    teamsMatch "Arizona Cardinals" "Seattle Seahawks"
        (Game.mk "2" "Arizona Cardinals" "Seattle Seahawks" "") = true
    ∧ ∃ l₁ l₂,
        [Game.mk "1" "Detroit Lions" "Chicago Bears" "",
         Game.mk "2" "Arizona Cardinals" "Seattle Seahawks" ""]
          = l₁ ++ Game.mk "2" "Arizona Cardinals" "Seattle Seahawks" "" :: l₂
        ∧ ∀ g' ∈ l₁,
            teamsMatch "Arizona Cardinals" "Seattle Seahawks" g' = false :=
  (cross_provider_game_lookup
      [Game.mk "1" "Detroit Lions" "Chicago Bears" "",
       Game.mk "2" "Arizona Cardinals" "Seattle Seahawks" ""]
      "Arizona Cardinals" "Seattle Seahawks").2
    (Game.mk "2" "Arizona Cardinals" "Seattle Seahawks" "") (by decide)

/-- A page whose response lets the pagination loop continue: a market list
with a non-falsy cursor. -/
def continuesFetch : PageResult → Bool
  | .page _ (some c) => c ≠ ""
  | _ => false

/-- The markets a page contributed. -/
def pageMarkets : PageResult → List Market
  | .err => []
  | .page ms _ => ms

/-- Claim C8: the paginated fetcher keeps following non-falsy cursors,
stops exactly at a response without one (returning every page's markets in
page order, issuing no further request), and on a transport/HTTP failure
abandons the fetch, returning the markets of all previously successful
pages without retrying. -/
theorem paginated_series_fetch :
    (∀ ms c rest, cursorAbsent c = true →
        get_all_markets_for_series (.page ms c :: rest) = ms)
    ∧ (∀ ms c rest, cursorAbsent c = false →
        get_all_markets_for_series (.page ms c :: rest)
          = ms ++ get_all_markets_for_series rest)
    ∧ (∀ rest, get_all_markets_for_series (.err :: rest) = [])
    ∧ (∀ pre ms c rest, (∀ p ∈ pre, continuesFetch p = true) →
        cursorAbsent c = true →
        get_all_markets_for_series (pre ++ .page ms c :: rest)
          = (pre.map pageMarkets).flatten ++ ms)
    ∧ (∀ pre rest, (∀ p ∈ pre, continuesFetch p = true) →
        get_all_markets_for_series (pre ++ .err :: rest)
          = (pre.map pageMarkets).flatten) := by
  have hstep : ∀ p rest, continuesFetch p = true →
      get_all_markets_for_series (p :: rest)
        = pageMarkets p ++ get_all_markets_for_series rest := by
    intro p rest hp
    match p with
    | .err => simp [continuesFetch] at hp
    | .page ms none => simp [continuesFetch] at hp
    | .page ms (some c) =>
      have hc : ¬ c = "" := by simpa [continuesFetch] using hp
      simp [get_all_markets_for_series, cursorAbsent, hc, pageMarkets]
  refine ⟨?_, ?_, ?_, ?_, ?_⟩
  · intro ms c rest h
    simp [get_all_markets_for_series, h]
  · intro ms c rest h
    simp [get_all_markets_for_series, h]
  · intro rest; rfl
  · intro pre ms c rest hpre habs
    induction pre with
    | nil => simp [get_all_markets_for_series, habs]
    | cons p t ih =>
      rw [List.cons_append, hstep p _ (hpre p (by simp))]
      rw [ih (fun q hq => hpre q (List.mem_cons_of_mem _ hq))]
      simp
  · intro pre rest hpre
    induction pre with
    | nil => rfl
    | cons p t ih =>
      rw [List.cons_append, hstep p _ (hpre p (by simp))]
      rw [ih (fun q hq => hpre q (List.mem_cons_of_mem _ hq))]
      simp

/-- Witness for C8: a two-page fetch that stops at the cursorless second
page, and a fetch whose second request fails and keeps page one. -/
theorem paginated_series_fetch_witness :
    get_all_markets_for_series
        [.page [Market.mk (some "active") "m1"] (some "cur1"),
         .page [Market.mk (some "finalized") "m2"] none]
      = [Market.mk (some "active") "m1", Market.mk (some "finalized") "m2"]
    ∧ get_all_markets_for_series
        [.page [Market.mk (some "active") "m1"] (some "cur1"), .err]
      = [Market.mk (some "active") "m1"] := by
  constructor
  · have h := paginated_series_fetch.2.2.2.1
      [PageResult.page [Market.mk (some "active") "m1"] (some "cur1")]
      [Market.mk (some "finalized") "m2"] none []
      (by decide) (by decide)
    simpa using h
  · have h := paginated_series_fetch.2.2.2.2
      [PageResult.page [Market.mk (some "active") "m1"] (some "cur1")] []
      (by decide)
    simpa using h

/-- Claim C9: two runs of the market fetcher over identical API responses
produce identical envelopes except for the `fetch_date` field. -/
theorem market_fetch_idempotent_modulo_date :
    ∀ (t₁ t₂ : String) (input : List (SeriesInfo × List PageResult)),
      (buildMarketsEnvelope t₁ input).total_series
          = (buildMarketsEnvelope t₂ input).total_series
      ∧ (buildMarketsEnvelope t₁ input).total_markets
          = (buildMarketsEnvelope t₂ input).total_markets
      ∧ (buildMarketsEnvelope t₁ input).statistics
          = (buildMarketsEnvelope t₂ input).statistics
      ∧ (buildMarketsEnvelope t₁ input).series_markets
          = (buildMarketsEnvelope t₂ input).series_markets
      ∧ { buildMarketsEnvelope t₁ input with fetch_date := t₂ }
          = buildMarketsEnvelope t₂ input := by
  intro t₁ t₂ input
  exact ⟨rfl, rfl, rfl, rfl, rfl⟩

/-- The counter invariant of the closing-lines collector. -/
def clInv (s : CLState) : Prop :=
  s.processed = s.successful + s.failed + s.skipped
    ∧ s.lines.length = s.successful

/-- The counter invariant of the sportsbook-odds collector. -/
def sbInv (s : SBState) : Prop :=
  s.processed = s.successful + s.failed ∧ s.records.length = s.successful

/-- Each closing-lines iteration sends the item to exactly one counter. -/
theorem clStep_inv (s : CLState) (m : MarketItem) (h : clInv s) :
    clInv (clStep s m) := by
  obtain ⟨h1, h2⟩ := h
  unfold clStep clInv
  split
  · exact ⟨by simp; omega, by simp [h2]⟩
  · split
    · exact ⟨by simp; omega, by simp [h2]⟩
    · split
      · exact ⟨by simp; omega, by simp [h2]⟩
      · exact ⟨by simp; omega, by simp [h2]⟩

/-- The closing-lines invariant is preserved by the whole loop. -/
theorem runCL_inv : ∀ (items : List MarketItem) (s : CLState),
    clInv s → clInv (runCL items s) := by
  intro items
  induction items with
  | nil => intro s h; exact h
  | cons m t ih =>
    intro s h
    exact ih (clStep s m) (clStep_inv s m h)

/-- Each sportsbook iteration that does not abort sends the item to exactly
one counter. -/
theorem sbStep_inv (s s' : SBState) (g : KalshiGame) (h : sbInv s)
    (hs : sbStep s g = .ok s') : sbInv s' := by
  obtain ⟨h1, h2⟩ := h
  unfold sbStep at hs
  split at hs
  · exact absurd hs (by simp)
  · cases hs
    exact ⟨by simp; omega, by simp [h2]⟩
  · split at hs
    · cases hs
      exact ⟨by simp; omega, by simp [h2]⟩
    · split at hs
      · cases hs
        exact ⟨by simp; omega, by simp [h2]⟩
      · cases hs
        exact ⟨by simp; omega, by simp [h2]⟩

/-- The sportsbook invariant is preserved by the whole loop. -/
theorem runSB_inv : ∀ (gs : List KalshiGame) (s s' : SBState),
    sbInv s → runSB gs s = .ok s' → sbInv s' := by
  intro gs
  induction gs with
  | nil =>
    intro s s' h hr
    cases hr
    exact h
  | cons g t ih =>
    intro s s' h hr
    unfold runSB at hr
    split at hr
    · cases hr
    · rename_i s₁ hs₁
      exact ih s₁ s' (sbStep_inv s s₁ g h hs₁) hr

/-- Claim C10: in every saved envelope the counters are consistent with the
payload: the closing-lines collector has `processed = successful + failed +
skipped` with `closing_lines` of length `successful`, and the
sportsbook-odds collector has `processed = successful + failed` with
`sportsbook_odds` of length `successful`. -/
theorem envelope_counters_consistent :
    (∀ (items : List MarketItem) (now : String),
      (collect_closing_lines_for_all_games items now).total_markets_processed
        = (collect_closing_lines_for_all_games items now).successful
          + (collect_closing_lines_for_all_games items now).failed
          + (collect_closing_lines_for_all_games items now).skipped
      ∧ (collect_closing_lines_for_all_games items now).closing_lines.length
        = (collect_closing_lines_for_all_games items now).successful)
    ∧ (∀ (games : List KalshiGame) (now : String) (env : SBEnvelope),
        collect_sportsbook_odds_for_games games now = .ok env →
          env.total_games_processed = env.successful + env.failed
          ∧ env.sportsbook_odds.length = env.successful) := by
  constructor
  · intro items now
    have h := runCL_inv items clInit ⟨rfl, rfl⟩
    exact ⟨h.1, h.2⟩
  · intro games now env henv
    unfold collect_sportsbook_odds_for_games at henv
    split at henv
    · cases henv
    · rename_i s hs
      cases henv
      have h := runSB_inv games sbInit s ⟨rfl, rfl⟩ hs
      exact ⟨h.1, h.2⟩

/-- Witness for C10: a one-item batch whose team resolution fails yields a
saved envelope with `processed = 1`, `failed = 1`, and an empty payload. -/
theorem envelope_counters_consistent_witness :
    (1 : Nat) = 0 + 1 ∧ (0 : Nat) = 0 :=
  envelope_counters_consistent.2
    [KalshiGame.mk "" "badticker" none (.failure "boom")] "now"
    ⟨"now", 1, 0, 1, []⟩ rfl

/-- A non-empty separator never occurs in the empty string. -/
theorem contains_nonempty (s sep : String) (hsep : sep.data ≠ [])
    (hc : strContains s sep = true) : s ≠ "" := by
  intro hs
  subst hs
  rw [show ("" : String) = ⟨[]⟩ from rfl] at hc
  simp only [strContains, listHasSegment, List.isEmpty] at hc
  match hd : sep.data, hc with
  | [], _ => exact hsep hd
  | _ :: _, hc => simp [hd] at hc

/-- Claim C6: the odds-matcher backend fails closed — a transport error, an
empty payload, an unparseable start time, or an absent game match each make
the per-item lookup return `None`; and an empty game list for the
historical query makes the lookup miss, the batch continue with the next
item, and the failure counter increment by exactly 1. -/
theorem odds_matcher_fails_closed :
    (∀ h a gst mb e,
        get_sportsbook_odds_before_game_start h a gst mb (.failure e) = none)
    ∧ (∀ h a gst mb ts,
        get_sportsbook_odds_before_game_start h a gst mb (.success none ts) = none)
    ∧ (∀ h a gst mb res, fromIsoformat gst = none →
        get_sportsbook_odds_before_game_start h a gst mb res = none)
    ∧ (∀ h a gst mb games ts, find_game_by_teams games h a = none →
        get_sportsbook_odds_before_game_start h a gst mb
          (.success (some games) ts) = none)
    ∧ (∀ (s : SBState) (g : KalshiGame) (rest : List KalshiGame) home away ts,
        resolveTeams g.subtitle g.ticker = .ok home away →
        g.histResult = .success (some []) ts →
        runSB (g :: rest) s
          = runSB rest { s with processed := s.processed + 1,
                                failed := s.failed + 1 }) := by
  refine ⟨?_, ?_, ?_, ?_, ?_⟩
  · intro h a gst mb e
    unfold get_sportsbook_odds_before_game_start
    cases hp : fromIsoformat gst <;> simp
  · intro h a gst mb ts
    unfold get_sportsbook_odds_before_game_start
    cases hp : fromIsoformat gst <;> simp
  · intro h a gst mb res hp
    unfold get_sportsbook_odds_before_game_start
    rw [hp]
  · intro h a gst mb games ts hfind
    unfold get_sportsbook_odds_before_game_start
    cases hp : fromIsoformat gst
    · rfl
    · simp [hfind]
  · intro s g rest home away ts hres hhist
    have hstep : sbStep s g
        = .ok { s with processed := s.processed + 1, failed := s.failed + 1 } := by
      unfold sbStep
      rw [hres]
      cases ht : truthy g.game_start with
      | none => rfl
      | some gs =>
        have hlook : get_sportsbook_odds_before_game_start (pyStrip home)
            (pyStrip away) gs 5 g.histResult = none := by
          rw [hhist]
          unfold get_sportsbook_odds_before_game_start
          cases hp : fromIsoformat gs
          · rfl
          · simp [find_game_by_teams]
        simp [hlook]
    have hcons : runSB (g :: rest) s
        = match sbStep s g with
          | .error e => Except.error e
          | .ok s' => runSB rest s' := rfl
    rw [hcons, hstep]

/-- Witness for C6: an empty historical game list for a resolvable contract
leaves one failure and untouched payload. -/
theorem odds_matcher_fails_closed_witness :
    runSB [KalshiGame.mk "Seattle Seahawks @ Arizona Cardinals" ""
        (some "2025-11-26T07:00:00Z") (.success (some []) "t")] sbInit
      = .ok ⟨1, 0, 1, []⟩ := by
  have h := odds_matcher_fails_closed.2.2.2.2 sbInit
    (KalshiGame.mk "Seattle Seahawks @ Arizona Cardinals" ""
      (some "2025-11-26T07:00:00Z") (.success (some []) "t")) []
    "Arizona Cardinals" "Seattle Seahawks" "t" (by decide) rfl
  simpa [runSB, sbInit] using h

/-- Claim C4: a subtitle containing `" @ "` splits as `away @ home` (left
part away, right part home); otherwise one containing `" vs "` splits as
`home vs away`; and `"Seattle Seahawks @ Arizona Cardinals"` resolves to
home `"Arizona Cardinals"`, away `"Seattle Seahawks"`. -/
theorem subtitle_team_resolution :
    (∀ sub ticker a h,
        strContains (pyStrip sub) " @ " = true →
        pySplit (pyStrip sub) " @ " = [a, h] →
        h ≠ "" → a ≠ "" →
        resolveTeams sub ticker = .ok h a)
    ∧ (∀ sub ticker h a rest,
        strContains (pyStrip sub) " @ " = false →
        strContains (pyStrip sub) " vs " = true →
        pySplit (pyStrip sub) " vs " = h :: a :: rest →
        h ≠ "" → a ≠ "" →
        resolveTeams sub ticker = .ok h a)
    ∧ ∀ ticker, resolveTeams "Seattle Seahawks @ Arizona Cardinals" ticker
        = .ok "Arizona Cardinals" "Seattle Seahawks" := by
  refine ⟨?_, ?_, ?_⟩
  · intro sub ticker a h hat hsplit hh ha
    have hne : pyStrip sub ≠ "" := contains_nonempty _ _ (by decide) hat
    unfold resolveTeams
    rw [if_pos ⟨hne, Or.inl hat⟩, if_pos hat, hsplit]
    simp [finalCheck, hh, ha]
  · intro sub ticker h a rest hat hvs hsplit hh ha
    have hne : pyStrip sub ≠ "" := contains_nonempty _ _ (by decide) hvs
    unfold resolveTeams
    rw [if_pos ⟨hne, Or.inr hvs⟩, if_neg (by simp [hat]), hsplit]
    simp [finalCheck, hh, ha]
  · intro ticker
    rfl

/-- Witness for C4: both separator conventions applied to concrete
subtitles. -/
theorem subtitle_team_resolution_witness :
    resolveTeams "Detroit Lions @ Chicago Bears" ""
      = .ok "Chicago Bears" "Detroit Lions"
    ∧ resolveTeams "Green Bay Packers vs Minnesota Vikings" ""
      = .ok "Green Bay Packers" "Minnesota Vikings" :=
  ⟨subtitle_team_resolution.1 "Detroit Lions @ Chicago Bears" ""
      "Detroit Lions" "Chicago Bears" (by decide) (by decide) (by decide)
      (by decide),
   subtitle_team_resolution.2.1 "Green Bay Packers vs Minnesota Vikings" ""
      "Green Bay Packers" "Minnesota Vikings" [] (by decide) (by decide)
      (by decide) (by decide) (by decide)⟩

/-- A successful association-list lookup exhibits its entry. -/
theorem lookup_mem : ∀ (l : List (String × String)) (k v : String),
    l.lookup k = some v → (k, v) ∈ l := by
  intro l
  induction l with
  | nil => intro k v h; simp [List.lookup] at h
  | cons p t ih =>
    intro k v h
    obtain ⟨pk, pv⟩ := p
    rw [List.lookup] at h
    cases hb : (k == pk) with
    | true =>
      rw [hb] at h
      cases h
      have : k = pk := by simpa using hb
      subst this
      exact List.mem_cons_self _ _
    | false =>
      rw [hb] at h
      exact List.mem_cons_of_mem _ (ih k v h)

/-- Every abbreviation in the table has at least two characters. -/
theorem team_map_key_len : ∀ p ∈ team_map, 2 ≤ p.1.data.length := by decide

/-- Distinct abbreviations map to distinct full names. -/
theorem team_map_vals_distinct :
    ∀ p ∈ team_map, ∀ q ∈ team_map, p.1 = q.1 ∨ p.2 ≠ q.2 := by decide

/-- Codes shorter than two characters are never in the table. -/
theorem tmLookup_short (s : String) (h : s.data.length < 2) :
    tmLookup s = none := by
  cases hl : tmLookup s with
  | none => rfl
  | some v =>
    have hm := lookup_mem team_map s v hl
    have h2 : 2 ≤ s.data.length := team_map_key_len (s, v) hm
    omega

/-- Split point 0 leaves an empty first half, never a valid code. -/
theorem validSplit_zero (tp : String) : validSplit tp 0 = false := by
  have h0 : strTake tp 0 = "" := rfl
  have : tmLookup (strTake tp 0) = none := by
    rw [h0]; decide
  simp [validSplit, this]

/-- Split point 1 leaves a one-character first half, never a valid code. -/
theorem validSplit_one (tp : String) : validSplit tp 1 = false := by
  have hlen : (strTake tp 1).data.length < 2 := by
    simp [strTake]
  simp [validSplit, tmLookup_short _ hlen]

/-- Split points at or past the end leave an empty or short second half,
never a valid code. -/
theorem validSplit_ge (tp : String) (i : Nat) (h : strLen tp ≤ i) :
    validSplit tp i = false := by
  have hd : tp.data.length ≤ i := h
  have hlen : (strDrop tp i).data.length < 2 := by
    show (tp.data.drop i).length < 2
    rw [List.length_drop]
    omega
  simp [validSplit, tmLookup_short _ hlen]

/-- The loop body equals first-match search plus the winner-rule
assignment. -/
theorem findCodesAux_eq (tp w : String) : ∀ l : List Nat,
    findCodesAux tp w l = (l.find? (validSplit tp)).map (assignCodes tp w) := by
  intro l
  induction l with
  | nil => rfl
  | cons i rest ih =>
    by_cases hv : validSplit tp i = true
    · rw [List.find?_cons_of_pos _ hv, Option.map_some']
      rw [findCodesAux, if_pos hv, assignCodes]
      show (if w = strTake tp i then some (strDrop tp i, strTake tp i)
          else if w = strDrop tp i then some (strTake tp i, strDrop tp i)
          else some (strTake tp i, strDrop tp i))
        = some (if w = strTake tp i then (strDrop tp i, strTake tp i)
            else if w = strDrop tp i then (strTake tp i, strDrop tp i)
            else (strTake tp i, strDrop tp i))
      by_cases h1 : w = strTake tp i
      · rw [if_pos h1, if_pos h1]
      · rw [if_neg h1, if_neg h1]
        by_cases h2 : w = strDrop tp i
        · rw [if_pos h2, if_pos h2]
        · rw [if_neg h2, if_neg h2]
    · rw [List.find?_cons_of_neg _ hv, ← ih]
      rw [findCodesAux, if_neg hv]

/-- The range `[0..n-1]` decomposes past its first two entries. -/
theorem range_decomp (n : Nat) (h2 : 2 ≤ n) :
    List.range n = [0, 1] ++ List.range' 2 (n - 2) := by
  have hh : n = 2 + (n - 2) := by omega
  rw [List.range_eq_range']
  conv_lhs => rw [hh]
  rw [show List.range' 0 (2 + (n - 2)) = List.range' 0 ((n - 2) + 2) from by
    rw [Nat.add_comm]]
  rw [← List.range'_append 0 2 (n - 2) 1]
  simp [List.range']

/-- The source loop over split points `2..len-1` finds the same first valid
split as the enumeration of every split point `0..len`. -/
theorem specFirstSplit_eq_code (tp : String) :
    specFirstSplit tp = ((List.range (strLen tp)).drop 2).find? (validSplit tp) := by
  by_cases h2 : 2 ≤ strLen tp
  · have hr := range_decomp (strLen tp) h2
    have hdrop : (List.range (strLen tp)).drop 2
        = List.range' 2 (strLen tp - 2) := by rw [hr]; rfl
    have hsucc : List.range (strLen tp + 1)
        = ([0, 1] ++ List.range' 2 (strLen tp - 2)) ++ [strLen tp] := by
      rw [List.range_succ, hr]
    rw [specFirstSplit, hsucc, hdrop]
    rw [List.find?_append, List.find?_append]
    simp [List.find?_cons, validSplit_zero, validSplit_one,
      validSplit_ge tp (strLen tp) (le_refl _), Option.or_none]
  · have h01 : strLen tp = 0 ∨ strLen tp = 1 := by omega
    rcases h01 with h | h
    · rw [specFirstSplit, h]
      simp [show List.range (0 + 1) = [0] from by decide,
        show List.range 0 = ([] : List Nat) from by decide,
        List.find?_cons, validSplit_zero]
    · rw [specFirstSplit, h]
      simp [show List.range (1 + 1) = [0, 1] from by decide,
        show List.range 1 = [0] from by decide,
        List.find?_cons, validSplit_zero, validSplit_one]

/-- `find?` over an ascending range returns the least satisfying index. -/
theorem find?_range'_first (p : Nat → Bool) :
    ∀ (k s i : Nat), (List.range' s k).find? p = some i →
      p i = true ∧ s ≤ i ∧ ∀ j, s ≤ j → j < i → p j = false := by
  intro k
  induction k with
  | zero => intro s i h; simp [List.range'] at h
  | succ m ih =>
    intro s i h
    rw [List.range'_succ] at h
    rw [List.find?_cons] at h
    cases hp : p s with
    | true =>
      rw [hp] at h
      cases h
      exact ⟨hp, le_refl _, fun j hj1 hj2 => absurd (lt_of_le_of_lt hj1 hj2) (lt_irrefl _)⟩
    | false =>
      rw [hp] at h
      obtain ⟨hpi, hsi, hfirst⟩ := ih (s + 1) i h
      refine ⟨hpi, by omega, ?_⟩
      intro j hj1 hj2
      rcases Nat.eq_or_lt_of_le hj1 with hj | hj
      · subst hj; exact hp
      · exact hfirst j hj hj2

/-- Claim C1: ticker team resolution scans every split point of the
concatenated code string in order, the first split whose halves are both
table codes wins, the winner-matching half is designated home (the other
away) with the first half defaulting to away when the winner matches
neither; and `"KXNFLGAME-25NOV02SEAWAS-WAS"` resolves to
home `"Washington Commanders"`, away `"Seattle Seahawks"`. -/
theorem ticker_resolution_first_valid_split :
    (∀ tp w, findCodes tp w = (specFirstSplit tp).map (assignCodes tp w))
    ∧ (∀ tp i, specFirstSplit tp = some i →
        validSplit tp i = true ∧ ∀ j, j < i → validSplit tp j = false)
    ∧ resolveTicker "KXNFLGAME-25NOV02SEAWAS-WAS"
        = some ("Washington Commanders", "Seattle Seahawks") := by
  refine ⟨?_, ?_, by decide⟩
  · intro tp w
    rw [findCodes, findCodesAux_eq, specFirstSplit_eq_code]
  · intro tp i h
    rw [specFirstSplit, List.range_eq_range'] at h
    obtain ⟨hpi, _, hfirst⟩ := find?_range'_first (validSplit tp) _ 0 i h
    exact ⟨hpi, fun j hj => hfirst j (Nat.zero_le _) hj⟩

/-- Witness for C1: on the code block `"SEAWAS"` the first valid split is
at index 3 and no earlier split point is valid. -/
theorem ticker_resolution_first_valid_split_witness :
    validSplit "SEAWAS" 3 = true ∧ ∀ j, j < 3 → validSplit "SEAWAS" j = false :=
  ticker_resolution_first_valid_split.2.1 "SEAWAS" 3 (by decide)

/-- A passing final check echoes its truthy inputs. -/
theorem finalCheck_ok {x y h a : String} (hk : finalCheck x y = .ok h a) :
    h = x ∧ a = y ∧ x ≠ "" ∧ y ≠ "" := by
  unfold finalCheck at hk
  split at hk
  · cases hk
  · rename_i hcond
    cases hk
    push_neg at hcond
    exact ⟨rfl, rfl, hcond.1, hcond.2⟩

/-- Unfolding of `resolveTeams` with its local bindings substituted. -/
theorem resolveTeams_def (sub t : String) : resolveTeams sub t =
    if pyStrip sub ≠ ""
        ∧ (strContains (pyStrip sub) " @ " = true
            ∨ strContains (pyStrip sub) " vs " = true) then
      if strContains (pyStrip sub) " @ " = true then
        match pySplit (pyStrip sub) " @ " with
        | [a, h] => finalCheck h a
        | _ => .crash
      else
        match pySplit (pyStrip sub) " vs " with
        | h :: a :: _ => finalCheck h a
        | _ => .crash
    else
      match resolveTicker t with
      | some (h, a) => finalCheck h a
      | none => .fail := rfl

/-- Unfolding of `resolveTicker` with its local bindings substituted. -/
theorem resolveTicker_def (t : String) : resolveTicker t =
    if 3 ≤ (pySplit t "-").length then
      match findCodes (strDrop ((pySplit t "-").getD 1 "") 7)
          ((pySplit t "-").getD 2 "") with
      | some (awayCode, homeCode) =>
        if (tmLookup awayCode).isSome && (tmLookup homeCode).isSome
            && awayCode ≠ homeCode then
          match tmLookup homeCode, tmLookup awayCode with
          | some homeFull, some awayFull => some (homeFull, awayFull)
          | _, _ => none
        else none
      | none => none
    else none := rfl

/-- Claim C7 counterexample: a subtitle whose two halves coincide resolves
successfully with `home = away`, so resolution does not succeed only with
two distinct team names. -/
theorem team_resolution_distinctness_counterexample :
    resolveTeams "A @ A" "x" = .ok "A" "A" := by decide

/-- Claim C7 (amended): a successful resolution always yields two truthy
names, but only the ticker branch guarantees two distinct table names; a
`fail` outcome skips the contract, increments the failure counter by one
and lets the run continue, while a subtitle with more than one `" @ "`
separator raises an uncaught unpack error that aborts the run (the subtitle
branches also accept equal halves, e.g. `"B @ B"`). -/
theorem team_resolution_failure_handling :
    (∀ sub t h a, resolveTeams sub t = .ok h a → h ≠ "" ∧ a ≠ "")
    ∧ (∀ t h a, resolveTicker t = some (h, a) →
        h ≠ a ∧ (∃ hc, tmLookup hc = some h) ∧ ∃ ac, tmLookup ac = some a)
    ∧ (∀ s g, resolveTeams g.subtitle g.ticker = .fail →
        sbStep s g = .ok { s with processed := s.processed + 1,
                                  failed := s.failed + 1 })
    ∧ (∀ s g gs, resolveTeams g.subtitle g.ticker = .fail →
        runSB (g :: gs) s
          = runSB gs { s with processed := s.processed + 1,
                              failed := s.failed + 1 })
    ∧ (∀ s g, resolveTeams g.subtitle g.ticker = .crash → sbStep s g = .error ())
    ∧ resolveTeams "B @ B" "x" = .ok "B" "B"
    ∧ resolveTeams "B @ B @ C" "x" = .crash := by
  have hok : ∀ sub t h a, resolveTeams sub t = .ok h a → h ≠ "" ∧ a ≠ "" := by
    intro sub t h a hk
    rw [resolveTeams_def] at hk
    split at hk
    · split at hk
      · split at hk
        · obtain ⟨hx, hy, hnx, hny⟩ := finalCheck_ok hk
          subst hx; subst hy
          exact ⟨hnx, hny⟩
        · simp at hk
      · split at hk
        · obtain ⟨hx, hy, hnx, hny⟩ := finalCheck_ok hk
          subst hx; subst hy
          exact ⟨hnx, hny⟩
        · simp at hk
    · split at hk
      · obtain ⟨hx, hy, hnx, hny⟩ := finalCheck_ok hk
        subst hx; subst hy
        exact ⟨hnx, hny⟩
      · simp at hk
  refine ⟨hok, ?_, ?_, ?_, ?_, by decide, by decide⟩
  · intro t h a hk
    rw [resolveTicker_def] at hk
    split at hk
    · split at hk
      · rename_i ac hc hm
        split at hk
        · rename_i hguard
          cases hhf : tmLookup hc with
          | none => rw [hhf] at hk; simp at hk
          | some hf =>
            cases haf : tmLookup ac with
            | none => rw [hhf, haf] at hk; simp at hk
            | some af =>
              rw [hhf, haf] at hk
              simp only [Option.some.injEq, Prod.mk.injEq] at hk
              obtain ⟨hkh, hka⟩ := hk
              have hmem_h := lookup_mem team_map hc hf hhf
              have hmem_a := lookup_mem team_map ac af haf
              have hne : ac ≠ hc := by
                simp only [Bool.and_eq_true, decide_eq_true_eq] at hguard
                exact hguard.2
              refine ⟨?_, ⟨hc, by rw [hhf, hkh]⟩, ⟨ac, by rw [haf, hka]⟩⟩
              intro hfa
              have hfeq : hf = af := by rw [hkh, hfa, ← hka]
              rcases team_map_vals_distinct (hc, hf) hmem_h (ac, af) hmem_a with
                h1 | h2
              · exact hne h1.symm
              · exact h2 hfeq
        · simp at hk
      · simp at hk
    · simp at hk
  · intro s g hres
    unfold sbStep
    rw [hres]
  · intro s g gs hres
    have hstep : sbStep s g
        = .ok { s with processed := s.processed + 1, failed := s.failed + 1 } := by
      unfold sbStep
      rw [hres]
    have hcons : runSB (g :: gs) s
        = match sbStep s g with
          | .error e => Except.error e
          | .ok s' => runSB gs s' := rfl
    rw [hcons, hstep]
  · intro s g hres
    unfold sbStep
    rw [hres]

/-- Witness for C7 (amended): a ticker whose two code halves coincide fails
the distinctness gate, is counted as one failure, and the run goes on. -/
theorem team_resolution_failure_handling_witness :
    sbStep sbInit
        (KalshiGame.mk "" "KXNFLGAME-25NOV02SEASEA-SEA" none (.failure "e"))
      = .ok { sbInit with processed := sbInit.processed + 1,
                          failed := sbInit.failed + 1 } :=
  team_resolution_failure_handling.2.2.1 sbInit
    (KalshiGame.mk "" "KXNFLGAME-25NOV02SEASEA-SEA" none (.failure "e"))
    (by decide)

end PMSB
